import Mathlib

/-!
Shallow embedding of the `linoleum` line editor (src/lib.rs, src/history.rs).

Text is modelled as `List Char`: the spec fixes the codepoint as the unit of
addressing, and for the inputs considered here Rust's byte lengths coincide
with codepoint counts.  Fallible Rust operations (indexing panics, the
`?` operator on terminal I/O) are modelled with `Option` / explicit outcome
constructors.  Loops of the source are modelled with explicit fuel; a result
of `none` for every fuel corresponds to non-termination of the source loop.
-/

namespace Linoleum

/-- `WORD_BREAKS` from src/lib.rs: the default word-break character set. -/
def WORD_BREAKS : List Char :=
  ("-_=+[]\x7b\x7d()<>,./\\`'\";:!@#$%^&*?|~ ").toList

/-- `EditResult` from src/lib.rs. -/
inductive EditResult where
  | Ok (s : List Char)
  | Cancel
  | Quit
deriving DecidableEq, Repr

/-- Whether index `j` of `chars` holds a character of the break set. -/
def breakAt (breaks chars : List Char) (j : Nat) : Bool :=
  match chars.get? j with
  | some c => breaks.contains c
  | none => false

/-- The scan loop shared by `find_word_boundary` and `find_space_boundary`
(src/lib.rs lines 736-748 / 710-722):
`while i != stop { i += step; if breaks contains chars[i] { if start - i > 1 { i -= step }; break } }`.
`i` is the `i64` loop variable; an access `chars[i as usize]` outside the
list (a Rust panic) gives `none`, and exhausted fuel gives `none`. -/
def boundaryLoop (breaks chars : List Char) (start stop step : Int) :
    Nat → Int → Option Int
  | 0, _ => none
  | fuel + 1, i =>
    if i = stop then some i
    else
      let j := i + step
      if j < 0 then none
      else
        match chars.get? j.toNat with
        | none => none
        | some c =>
          if breaks.contains c then
            some (if 1 < start - j then j - step else j)
          else boundaryLoop breaks chars start stop step fuel j

/-- `find_word_boundary` from src/lib.rs (lines 728-751).  The fuel
`chars.length + start + 2` is enough for every terminating run of the
source loop, so `none` means the source would have panicked. -/
def find_word_boundary (breaks chars : List Char) (start : Nat)
    (backwards : Bool) : Option Nat :=
  let sd : Int × Int := if backwards then (-1, 0) else (1, (chars.length : Int) - 1)
  (boundaryLoop breaks chars start sd.2 sd.1 (chars.length + start + 2) start).map
    Int.toNat

/-- `find_space_boundary` from src/lib.rs (lines 701-725): the same scan with
the single delimiter `' '`. -/
def find_space_boundary (chars : List Char) (start : Nat)
    (backwards : Bool) : Option Nat :=
  find_word_boundary [' '] chars start backwards

/-- `History` from src/history.rs. -/
structure History where
  lines : List (List Char)
  file : List Char
  index : Nat
  max_lines : Nat
deriving DecidableEq, Repr

/-- `History::push` (src/history.rs lines 52-56): `lines.push(l)` then
`lines.truncate(max_lines)` (Rust `Vec::truncate` keeps the first
`max_lines` elements), then `index = lines.len()`. -/
def History.push (h : History) (l : List Char) : History :=
  let lines := (h.lines ++ [l]).take h.max_lines
  { h with lines := lines, index := lines.length }

/-- `History::reset_index` (src/history.rs lines 59-61). -/
def History.reset_index (h : History) : History :=
  { h with index := h.lines.length }

/-- `History::up` (src/history.rs lines 64-71), returning the mutated store
together with the produced line. -/
def History.up (h : History) : History × Option (List Char) :=
  if 0 < h.index then
    let h' : History := { h with index := h.index - 1 }
    (h', h'.lines.get? h'.index)
  else (h, none)

/-- `History::down` (src/history.rs lines 74-81). -/
def History.down (h : History) : History × Option (List Char) :=
  if h.index + 1 < h.lines.length then
    let h' : History := { h with index := h.index + 1 }
    (h', h'.lines.get? h'.index)
  else (h, none)

/-- `History::save` (src/history.rs lines 41-49): the content written to the
backing file, `lines.join("\n")`. -/
def History.save (h : History) : List Char :=
  List.intercalate ['\n'] h.lines

/-- Rust `str::lines`: split on `'\n'`, drop a final empty segment (a final
line ending is optional), strip one trailing `'\r'` from each line. -/
def rustLines (s : List Char) : List (List Char) :=
  let parts := s.splitOn '\n'
  let parts := if parts.getLast? = some [] then parts.dropLast else parts
  parts.map (fun p => if p.getLast? = some '\r' then p.dropLast else p)

/-- `History::new` (src/history.rs lines 15-37) with the backing file
abstracted to its content: `none` models a missing file (empty history). -/
def History.new (content : Option (List Char)) (file_path : List Char)
    (max_lines : Nat) : History :=
  let lines := rustLines (content.getD [])
  { lines := lines, file := file_path, index := lines.length,
    max_lines := max_lines }

/-- Output of one `redraw`: the row segments written (first row, then the
continuation rows), the resulting `num_lines` and `cursor_line` counters, and
the column the visual cursor is finally placed at. -/
structure RedrawOut where
  rows : List (List Char)
  num_lines : Nat
  cursor_line : Nat
  col : Nat
deriving DecidableEq, Repr

/-- The wrap loop of `redraw` (src/lib.rs lines 812-822):
`loop { data = cap..len; if data.is_empty() { break }; cap = data_length.min(size); write "\r\n" + str[data.start..cap]; num_lines += 1; cursor_line += 1 }`.
State is the running `cap`; the accumulated continuation rows and their count
are threaded through.  `none` for every fuel means the source loop never
terminates. -/
def redrawLoop (data : List Char) (W : Nat) :
    Nat → Nat → List (List Char) → Nat → Option (List (List Char) × Nat)
  | 0, _, _, _ => none
  | fuel + 1, cap, rows, n =>
    if data.length ≤ cap then some (rows, n)
    else
      let cap2 := min data.length W
      redrawLoop data W fuel cap2 (rows ++ [(data.drop cap).take (cap2 - cap)])
        (n + 1)

/-- `redraw` (src/lib.rs lines 782-847), with the identity highlighter (so the
ANSI-aware length equals the plain length) and terminal width `W`.  Models the
written row partition and the final counter/cursor values; terminal writes
themselves are not represented.  `none` means the wrap loop of the source
diverges. -/
def redraw (data : List Char) (prompt_length W : Nat) (endPos : Nat)
    (fuel : Nat) : Option RedrawOut :=
  let cap := min data.length (W - prompt_length)
  let row0 := data.take cap
  let length := data.length + prompt_length
  if W < length then
    match redrawLoop data W fuel cap [] 0 with
    | none => none
    | some (rows, n) =>
      let e := endPos + prompt_length
      -- `MoveToColumn(e % W)` then move up/down by `n - e / W`,
      -- leaving `cursor_line = e / W`.
      some ⟨row0 :: rows, n, e / W, e % W⟩
  else if length = W ∧ endPos = data.length then
    some ⟨[row0], 1, 1, 0⟩
  else
    some ⟨[row0], 0, 0, endPos + prompt_length⟩

/-- `move_to` (src/lib.rs lines 754-778): given the current `cursor_line` and
the target buffer index `endPos`, returns the new `cursor_line` and the column
the cursor is moved to.  The source computes `move_up = cursor_line - e / W`
and adjusts `cursor_line` by it in the matching direction. -/
def move_to (prompt_length W : Nat) (cursor_line : Nat) (endPos : Nat) :
    Nat × Nat :=
  let e := endPos + prompt_length
  let col := e % W
  let move_up : Int := (cursor_line : Int) - ((e / W : Nat) : Int)
  let cl : Nat :=
    if 0 < move_up then cursor_line - move_up.toNat
    else cursor_line + (- move_up).toNat
  (cl, col)

/-- Key codes of the events `read` dispatches on (crossterm `KeyCode`);
`other` stands for every code the `match` ignores. -/
inductive Key where
  | enter
  | backspace
  | char (c : Char)
  | left
  | right
  | up
  | down
  | home
  | endKey
  | tab
  | other
deriving DecidableEq, Repr

/-- A key event: code plus the modifier and lock state `read` inspects. -/
structure KeyEvent where
  code : Key
  ctrl : Bool
  shift : Bool
  capsLock : Bool
deriving DecidableEq, Repr

/-- The per-`read` mutable state of the dispatch loop (src/lib.rs lines
246-263) together with the raw-mode flag and a schedule of injected terminal
I/O failures: each fallible terminal operation (a redraw, a cursor move, a
completion clear/show, the final `writeln!`) pops one entry; `true` makes
that operation fail, an exhausted schedule means success. -/
structure EditorState where
  data : List Char
  cursor : Nat
  cursor_line : Nat
  num_lines : Nat
  completion_length : Nat
  completions : List (List Char)
  completion_index : Nat
  history : Option History
  rawMode : Bool
  io : List Bool
deriving DecidableEq, Repr

/-- The per-editor configuration `read` consults: word breaks, the visible
prompt length, the terminal width, and the optional completion source. -/
structure Config where
  word_breaks : List Char
  prompt_length : Nat
  width : Nat
  completion : Option (List Char → Nat → Nat → List (List Char))

/-- Result of one iteration of the dispatch loop: keep looping with a new
state, return a result (the `EditResult` paths), propagate a terminal I/O
error, or panic / diverge. -/
inductive StepRes where
  | cont (s : EditorState)
  | done (r : EditResult) (s : EditorState)
  | ioErr (s : EditorState)
  | crash
deriving DecidableEq, Repr

/-- Pop the next injected-failure flag off the I/O schedule. -/
def popFail : List Bool → Bool × List Bool
  | [] => (false, [])
  | b :: r => (b, r)

/-- Run one fallible terminal operation: on scheduled failure the `?`
operator propagates the error with the state as it stands. -/
def tryOp (s : EditorState) (k : EditorState → StepRes) : StepRes :=
  if (popFail s.io).1 then .ioErr { s with io := (popFail s.io).2 }
  else k { s with io := (popFail s.io).2 }

/-- A `self.redraw(...)?` call site: one fallible operation, then the
counter updates of `redraw`; a diverging wrap loop is a crash. -/
def doRedraw (cfg : Config) (s : EditorState) : StepRes :=
  tryOp s fun s =>
    match redraw s.data cfg.prompt_length cfg.width s.cursor
        (s.data.length + 2) with
    | none => .crash
    | some out =>
        .cont { s with cursor_line := out.cursor_line,
                       num_lines := out.num_lines }

/-- A `self.move_to(...)?` call site: one fallible operation, then the
`cursor_line` update of `move_to`. -/
def doMoveTo (cfg : Config) (s : EditorState) : StepRes :=
  tryOp s fun s =>
    .cont { s with
      cursor_line := (move_to cfg.prompt_length cfg.width s.cursor_line
        s.cursor).1 }

/-- A `completion_length = self.show_completions(...)?` call site
(src/lib.rs lines 625-699): an empty candidate list returns 0 rows without
touching the terminal; otherwise one fallible operation draws
`ceil(candidates / 2)` rows. -/
def doShow (s : EditorState) (k : EditorState → StepRes) : StepRes :=
  if s.completions = [] then k { s with completion_length := 0 }
  else
    tryOp s fun s =>
      k { s with completion_length := (s.completions.length + 1) / 2 }

/-- The clear/show/move sequence every completion-panel arrow key performs
(e.g. src/lib.rs lines 388-406). -/
def panelRender (cfg : Config) (s : EditorState) : StepRes :=
  tryOp s fun s => doShow s fun s => doMoveTo cfg s

/-- Exit bookkeeping shared by Ctrl-C / Ctrl-D
(src/lib.rs lines 355-368): `terminal::disable_raw_mode()?`,
`self.reset_history_index()`, `writeln!(stdout)?`, return the result. -/
def doQuit (s : EditorState) (r : EditResult) : StepRes :=
  let s := { s with rawMode := false,
                    history := s.history.map History.reset_index }
  tryOp s fun s => .done r s

/-- The Ctrl-modified character handler (src/lib.rs lines 337-369), run
after the completion panel, if any, has been cleared: Ctrl-H deletes the
word before the cursor and redraws; Ctrl-D exits with `Quit` on an empty
buffer and `Cancel` otherwise; Ctrl-C exits with `Cancel`; any other
control character does nothing. -/
def ctrlCharStep (cfg : Config) (c : Char) (s : EditorState) : StepRes :=
  if c = 'h' then
    match find_word_boundary cfg.word_breaks s.data s.cursor true with
    | none => .crash
    | some c' =>
      doRedraw cfg
        { s with data := s.data.take c' ++ s.data.drop s.cursor,
                 cursor := c' }
  else if c = 'd' then
    doQuit s (if s.data = [] then .Quit else .Cancel)
  else if c = 'c' then
    doQuit s .Cancel
  else .cont s

/-- The show-then-reposition tail of the Tab handler
(src/lib.rs lines 549-557). -/
def tabShow (cfg : Config) (s : EditorState) : StepRes :=
  doShow s fun s => doMoveTo cfg s

/-- The `match key.code` body of `read` (src/lib.rs lines 280-560), without
the trailing completion-dismiss block. -/
def dispatchKey (cfg : Config) (s : EditorState) (ev : KeyEvent) : StepRes :=
  match ev.code with
  | .enter =>
    if s.completion_length ≠ 0 then
      match find_space_boundary s.data s.cursor true with
      | none => .crash
      | some c0 =>
        let c1 :=
          match s.data.get? c0 with
          | some ch => if cfg.word_breaks.contains ch then c0 + 1 else c0
          | none => c0
        let newData := s.data.take c1 ++ s.data.drop s.cursor
        match s.completions.get? s.completion_index with
        | none => .crash
        | some comp =>
          if c1 ≤ newData.length then
            doRedraw cfg
              { s with data := newData.take c1 ++ comp ++ newData.drop c1,
                       cursor := c1 + comp.length }
          else .crash
    else
      -- `break` out of the loop (src/lib.rs lines 575-583): disable raw
      -- mode, reset the history index, push the line, `writeln!`, Ok.
      let s := { s with rawMode := false,
                        history := (s.history.map History.reset_index).map
                          (fun h => h.push s.data) }
      tryOp s fun s => .done (.Ok s.data) s
  | .backspace =>
    if s.cursor ≠ 0 then
      if s.cursor - 1 < s.data.length then
        doRedraw cfg
          { s with cursor := s.cursor - 1,
                   data := s.data.eraseIdx (s.cursor - 1) }
      else .crash
    else .cont s
  | .char c =>
    if ev.ctrl then
      if s.completion_length ≠ 0 then tryOp s (ctrlCharStep cfg c)
      else ctrlCharStep cfg c s
    else
      let ch := if ev.shift ^^ ev.capsLock then c.toUpper else c
      if s.cursor ≤ s.data.length then
        doRedraw cfg
          { s with data := s.data.take s.cursor ++ ch :: s.data.drop s.cursor,
                   cursor := s.cursor + 1 }
      else .crash
  | .left =>
    if s.completion_length ≠ 0 then
      panelRender cfg { s with completion_index := s.completion_index - 1 }
    else if ev.ctrl then
      match find_word_boundary cfg.word_breaks s.data s.cursor true with
      | none => .crash
      | some c' => doMoveTo cfg { s with cursor := c' }
    else if s.cursor ≠ 0 then
      doMoveTo cfg { s with cursor := s.cursor - 1 }
    else .cont s
  | .right =>
    if s.completion_length ≠ 0 then
      panelRender cfg { s with completion_index := s.completion_index + 1 }
    else if ev.ctrl then
      match find_word_boundary cfg.word_breaks s.data s.cursor false with
      | none => .crash
      | some c' => doMoveTo cfg { s with cursor := c' + 1 }
    else if s.cursor ≠ s.data.length then
      doMoveTo cfg { s with cursor := s.cursor + 1 }
    else .cont s
  | .up =>
    if s.completion_length ≠ 0 then
      panelRender cfg { s with completion_index := s.completion_index - 2 }
    else
      match s.history with
      | none => .cont s
      | some h =>
        match h.up with
        | (h', some line) =>
          doRedraw cfg { s with history := some h', data := line,
                                cursor := line.length }
        | (h', none) => .cont { s with history := some h' }
  | .down =>
    if s.completion_length ≠ 0 then
      panelRender cfg { s with completion_index := s.completion_index + 2 }
    else
      match s.history with
      | none => .cont s
      | some h =>
        match h.down with
        | (h', some line) =>
          doRedraw cfg { s with history := some h', data := line,
                                cursor := line.length }
        | (h', none) =>
          doRedraw cfg { s with history := some h', data := [], cursor := 0 }
  | .home => doMoveTo cfg { s with cursor := 0 }
  | .endKey => doMoveTo cfg { s with cursor := s.data.length }
  | .tab =>
    match find_space_boundary s.data s.cursor true with
    | none => .crash
    | some wordStart =>
      match cfg.completion with
      | none => .cont s   -- `continue`: skips the trailing block
      | some f =>
        let s := { s with completions := f s.data wordStart s.cursor }
        if s.completion_length ≠ 0 then tryOp s (tabShow cfg)
        else tabShow cfg s
  | .other => .cont s

/-- The trailing completion-dismiss block (src/lib.rs lines 562-571):
keys outside the completion sub-protocol clear the panel. -/
def trailing (s : EditorState) (ev : KeyEvent) : StepRes :=
  if s.completion_length ≠ 0 ∧
      ev.code ∉ [Key.tab, Key.left, Key.right, Key.up, Key.down] then
    tryOp s fun s =>
      .cont { s with completion_length := 0, completion_index := 0 }
  else .cont s

/-- One full key dispatch of the `read` loop: the `match` body, then (on
paths that fall through rather than `return` / `break` / `continue`) the
trailing completion-dismiss block. -/
def dispatch (cfg : Config) (s : EditorState) (ev : KeyEvent) : StepRes :=
  match dispatchKey cfg s ev with
  | .cont s' => trailing s' ev
  | r => r

/-- One full iteration of the `read` loop including the `event::read()` at
the top (src/lib.rs lines 266-274): a failed event read disables raw mode
and propagates the error. -/
def readIter (cfg : Config) (s : EditorState) (ev : Option KeyEvent) :
    StepRes :=
  match ev with
  | none => .ioErr { s with rawMode := false }
  | some k => dispatch cfg s k

/-! ## Specification-side definitions and concrete instances -/

/-- The index of the last break character strictly below `i`, scanning
downward — the delimiter the backward scan of `find_word_boundary` hits. -/
def lastBreakBefore (breaks chars : List Char) : Nat → Option Nat
  | 0 => none
  | i + 1 =>
    if breakAt breaks chars i then some i else lastBreakBefore breaks chars i

/-- The index of the first break character among `j, j+1, …, j+steps-1` —
the delimiter the forward scan of `find_word_boundary` hits. -/
def firstBreakFrom (breaks chars : List Char) : Nat → Nat → Option Nat
  | 0, _ => none
  | steps + 1, j =>
    if breakAt breaks chars j then some j
    else firstBreakFrom breaks chars steps (j + 1)

/-- The backward-scan result as the claim describes it: the nearest
delimiter below `start`, stepped back one position toward `start` when the
distance exceeds 1, the delimiter itself at distance exactly 1, and the
edge index 0 when no delimiter occurs. -/
def backBoundarySpec (breaks chars : List Char) (start : Nat) : Nat :=
  match lastBreakBefore breaks chars start with
  | some d => if 1 < start - d then d + 1 else d
  | none => 0

/-- The forward-scan result as the code computes it: the nearest delimiter
above `start` (the scan stops at index `len - 1`), with *no* step-back —
the source compares the signed `start - i`, which cannot exceed 1 going
forward — and the edge index `len - 1` when no delimiter occurs. -/
def fwdBoundarySpec (breaks chars : List Char) (start : Nat) : Nat :=
  match firstBreakFrom breaks chars (chars.length - 1 - start) (start + 1) with
  | some j => j
  | none => chars.length - 1

/-- Modelled from the claim's words, for comparison: the forward-scan result
if the step-back rule applied to the absolute distance in both directions,
as the claim asserts — the found delimiter stepped back one position toward
`start` whenever the distance exceeds 1. -/
def claimedBoundaryFwd (breaks chars : List Char) (start : Nat) : Nat :=
  match firstBreakFrom breaks chars (chars.length - 1 - start) (start + 1) with
  | some j => if 1 < j - start then j - 1 else j
  | none => chars.length - 1

/-- Concrete 23-character buffer for the wrap-math example. -/
def data23 : List Char := List.replicate 23 'x'

/-- The claim's three-entry store `["a","b","c"]` with `nav_index = k`. -/
def histNav (k : Nat) : History := ⟨[['a'], ['b'], ['c']], [], k, 100⟩

/-- A fresh editing session state: empty buffer, raw mode on, no panel. -/
def freshState : EditorState := ⟨[], 0, 0, 0, 0, [], 0, none, true, []⟩

/-- A configuration whose completion source always offers the single
candidate `"a"`. -/
def cfgOneCandidate : Config := ⟨WORD_BREAKS, 2, 80, some (fun _ _ _ => [['a']])⟩

/-- The state after Tab in `freshState` under `cfgOneCandidate`: the panel
shows one candidate. -/
def panelState : EditorState :=
  { freshState with completions := [['a']], completion_length := 1 }

/-- The plain configuration used by concrete witnesses. -/
def cfgPlain : Config := ⟨WORD_BREAKS, 2, 80, none⟩

/-- A session holding the buffer `"hi"` with the cursor at its end. -/
def sHi : EditorState := ⟨['h', 'i'], 2, 0, 0, 0, [], 0, none, true, []⟩

/-- The buffer-cursor invariant the claims state: `0 <= cursor <= len`. -/
def cursorInv (s : EditorState) : Prop := s.cursor ≤ s.data.length

/-- The cursor invariant, read off every state a step outcome carries. -/
def stepInv : StepRes → Prop
  | .cont s => cursorInv s
  | .done _ s => cursorInv s
  | .ioErr s => cursorInv s
  | .crash => True

/-- Run a whole sequence of key events through the dispatch loop, stopping
at the first outcome that leaves the loop. -/
def runEvents (cfg : Config) : EditorState → List KeyEvent → StepRes
  | s, [] => .cont s
  | s, ev :: evs =>
    match dispatch cfg s ev with
    | .cont s' => runEvents cfg s' evs
    | r => r

/-! ## Helper lemmas -/

/-- Once the running `cap` of the wrap loop is below the data length and the
terminal width caps it below the data length as well, the loop never
terminates: `cap` is recomputed as `min data.length W` on every iteration
and the remaining range `cap..len` never empties. -/
theorem redrawLoop_eq_none (data : List Char) (W : Nat)
    (hW : min data.length W < data.length) :
    ∀ fuel cap rows n, cap < data.length →
      redrawLoop data W fuel cap rows n = none := by
  intro fuel
  induction fuel with
  | zero => intro cap rows n _; rfl
  | succ fuel ih =>
    intro cap rows n hcap
    rw [redrawLoop, if_neg (Nat.not_le.mpr hcap)]
    exact ih _ _ _ hW

/-- The backward scan, fully characterised: starting from `i ≤ len` with
enough fuel, the loop returns the `backBoundarySpec`-style answer computed
from the delimiters below `i`. -/
theorem boundaryLoop_backwards (breaks chars : List Char) (start : Nat) :
    ∀ i : Nat, i ≤ chars.length → ∀ fuel, i < fuel →
      boundaryLoop breaks chars start 0 (-1) fuel i =
        some (((match lastBreakBefore breaks chars i with
          | some d => if 1 < start - d then d + 1 else d
          | none => 0 : Nat) : Int)) := by
  intro i
  induction i with
  | zero =>
    intro _ fuel hf
    match fuel, hf with
    | fuel + 1, _ =>
      simp [boundaryLoop, lastBreakBefore]
  | succ i ih =>
    intro hle fuel hf
    match fuel, hf with
    | fuel + 1, hf =>
      rw [boundaryLoop]
      rw [if_neg (show ¬ (((i + 1 : Nat) : Int) = 0) from by omega)]
      have hj : ((i + 1 : Nat) : Int) + (-1) = (i : Int) := by omega
      simp only [hj]
      rw [if_neg (show ¬ ((i : Int) < 0) from by omega)]
      have hilen : i < chars.length := by omega
      cases hgc : chars.get? i with
      | none => exact absurd (List.get?_eq_none.mp hgc) (by omega)
      | some c =>
        rw [show ((i : Int)).toNat = i from by simp, hgc]
        dsimp only
        rw [lastBreakBefore]
        by_cases hbr : breaks.contains c = true
        · have hba : breakAt breaks chars i = true := by
            unfold breakAt
            rw [hgc]
            exact hbr
          rw [if_pos hbr, if_pos hba]
          dsimp only
          by_cases hd : 1 < start - i
          · rw [if_pos (show (1 : Int) < (start : Int) - (i : Int) from by
                omega), if_pos hd]
            simp only [Option.some.injEq]
            omega
          · rw [if_neg (show ¬ ((1 : Int) < (start : Int) - (i : Int)) from by
                omega), if_neg hd]
        · have hba : breakAt breaks chars i = false := by
            unfold breakAt
            rw [hgc]
            simp only [Bool.not_eq_true] at hbr
            exact hbr
          rw [if_neg hbr, if_neg (by rw [hba]; exact Bool.false_ne_true)]
          exact ih (by omega) fuel (by omega)

/-- The forward scan, fully characterised: from `start ≤ i < len` with
enough fuel, the loop returns the first delimiter past `i` (no step-back,
since `start - j` is never above 1 going forward), or the edge `len - 1`. -/
theorem boundaryLoop_forwards (breaks chars : List Char) (start : Nat) :
    ∀ fuel i, start ≤ i → i < chars.length → chars.length - i ≤ fuel →
      boundaryLoop breaks chars start ((chars.length : Int) - 1) 1 fuel i =
        some (((match firstBreakFrom breaks chars (chars.length - 1 - i)
            (i + 1) with
          | some j => j
          | none => chars.length - 1 : Nat) : Int)) := by
  intro fuel
  induction fuel with
  | zero =>
    intro i _ hlt hfu
    omega
  | succ fuel ih =>
    intro i hsi hlt hfu
    rw [boundaryLoop]
    by_cases hstop : i = chars.length - 1
    · rw [if_pos (show (i : Int) = (chars.length : Int) - 1 from by omega)]
      rw [show chars.length - 1 - i = 0 from by omega]
      rw [firstBreakFrom]
      dsimp only
      congr 1
      omega
    · rw [if_neg (show ¬ ((i : Int) = (chars.length : Int) - 1) from by
        omega)]
      rw [if_neg (show ¬ ((i : Int) + 1 < 0) from by omega)]
      have hi1 : i + 1 < chars.length := by omega
      cases hgc : chars.get? (i + 1) with
      | none => exact absurd (List.get?_eq_none.mp hgc) (by omega)
      | some c =>
        rw [show ((i : Int) + 1).toNat = i + 1 from by omega, hgc]
        dsimp only
        have hsplit : chars.length - 1 - i =
            (chars.length - 1 - (i + 1)) + 1 := by
          omega
        rw [hsplit, firstBreakFrom]
        by_cases hbr : breaks.contains c = true
        · have hba : breakAt breaks chars (i + 1) = true := by
            unfold breakAt
            rw [hgc]
            exact hbr
          rw [if_pos hbr, if_pos hba]
          rw [if_neg (show ¬ ((1 : Int) < (start : Int) - ((i : Int) + 1))
            from by omega)]
          simp
        · have hba : breakAt breaks chars (i + 1) = false := by
            unfold breakAt
            rw [hgc]
            simp only [Bool.not_eq_true] at hbr
            exact hbr
          rw [if_neg hbr, if_neg (by rw [hba]; exact Bool.false_ne_true)]
          rw [show (i : Int) + 1 = ((i + 1 : Nat) : Int) from by omega]
          exact ih (i + 1) (by omega) hi1 (by omega)

/-- `find_word_boundary` backwards from any `start ≤ len` returns
`backBoundarySpec`. -/
theorem find_word_boundary_backwards_eq (breaks chars : List Char)
    (start : Nat) (hs : start ≤ chars.length) :
    find_word_boundary breaks chars start true =
      some (backBoundarySpec breaks chars start) := by
  rw [find_word_boundary]
  show (boundaryLoop breaks chars (start : Int) 0 (-1)
    (chars.length + start + 2) (start : Int)).map Int.toNat = _
  rw [boundaryLoop_backwards breaks chars start start hs
    (chars.length + start + 2) (by omega)]
  simp [backBoundarySpec]

/-- `find_word_boundary` forwards from any `start < len` returns
`fwdBoundarySpec`. -/
theorem find_word_boundary_forwards_eq (breaks chars : List Char)
    (start : Nat) (hs : start < chars.length) :
    find_word_boundary breaks chars start false =
      some (fwdBoundarySpec breaks chars start) := by
  rw [find_word_boundary]
  show (boundaryLoop breaks chars (start : Int) ((chars.length : Int) - 1) 1
    (chars.length + start + 2) (start : Int)).map Int.toNat = _
  rw [boundaryLoop_forwards breaks chars start (chars.length + start + 2)
    start (Nat.le_refl start) hs (by omega)]
  simp [fwdBoundarySpec]

/-- `find_word_boundary` forwards from `start ≥ len` indexes past the end of
the buffer on its first step — a panic in the source. -/
theorem find_word_boundary_forwards_oob (breaks chars : List Char)
    (start : Nat) (hs : chars.length ≤ start) :
    find_word_boundary breaks chars start false = none := by
  rw [find_word_boundary]
  show (boundaryLoop breaks chars (start : Int) ((chars.length : Int) - 1) 1
    (chars.length + start + 2) (start : Int)).map Int.toNat = _
  rw [show chars.length + start + 2 = (chars.length + start + 1) + 1 from rfl]
  rw [boundaryLoop]
  rw [if_neg (show ¬ ((start : Int) = (chars.length : Int) - 1) from by
    omega)]
  rw [if_neg (show ¬ ((start : Int) + 1 < 0) from by omega)]
  rw [show ((start : Int) + 1).toNat = start + 1 from by omega]
  rw [List.get?_eq_none.mpr (by omega)]
  rfl

/-- If the continuation never returns a result, neither does `tryOp`. -/
theorem tryOp_ne_done (s : EditorState) (k : EditorState → StepRes)
    (hk : ∀ s' r t, k s' ≠ .done r t) : ∀ r t, tryOp s k ≠ .done r t := by
  intro r t
  unfold tryOp
  split
  · simp
  · exact hk _ r t

/-- A redraw call site never returns an `EditResult`. -/
theorem doRedraw_ne_done (cfg : Config) (s : EditorState) :
    ∀ r t, doRedraw cfg s ≠ .done r t := by
  apply tryOp_ne_done
  intro s' r t
  dsimp only
  split <;> simp

/-- A `move_to` call site never returns an `EditResult`. -/
theorem doMoveTo_ne_done (cfg : Config) (s : EditorState) :
    ∀ r t, doMoveTo cfg s ≠ .done r t := by
  apply tryOp_ne_done
  intro s' r t
  simp

/-- `show_completions` call sites never return an `EditResult`. -/
theorem doShow_ne_done (s : EditorState) (k : EditorState → StepRes)
    (hk : ∀ s' r t, k s' ≠ .done r t) : ∀ r t, doShow s k ≠ .done r t := by
  intro r t
  unfold doShow
  split
  · exact hk _ r t
  · exact tryOp_ne_done _ _ (fun s' r t => hk _ r t) r t

/-- The Tab show/reposition tail never returns an `EditResult`. -/
theorem tabShow_ne_done (cfg : Config) (s : EditorState) :
    ∀ r t, tabShow cfg s ≠ .done r t := by
  unfold tabShow
  exact doShow_ne_done _ _ (fun s' r t => doMoveTo_ne_done cfg s' r t)

/-- The completion-panel redraw sequence never returns an `EditResult`. -/
theorem panelRender_ne_done (cfg : Config) (s : EditorState) :
    ∀ r t, panelRender cfg s ≠ .done r t := by
  apply tryOp_ne_done
  intro s' r t
  exact doShow_ne_done _ _ (fun s'' r t => doMoveTo_ne_done cfg s'' r t) r t

/-- The trailing completion-dismiss block never returns an `EditResult`. -/
theorem trailing_ne_done (s : EditorState) (ev : KeyEvent) :
    ∀ r t, trailing s ev ≠ .done r t := by
  intro r t
  unfold trailing
  split
  · exact tryOp_ne_done _ _ (by intro s' r t; simp) r t
  · simp

/-- When the Ctrl-C/Ctrl-D exit path returns a result, it is the requested
one and raw mode has been disabled first. -/
theorem doQuit_done (s : EditorState) (r0 r : EditResult) (t : EditorState)
    (h : doQuit s r0 = .done r t) : r = r0 ∧ t.rawMode = false := by
  unfold doQuit tryOp at h
  dsimp only at h
  split at h
  · simp at h
  · simp only [StepRes.done.injEq] at h
    obtain ⟨h1, h2⟩ := h
    subst h1
    subst h2
    exact ⟨rfl, rfl⟩

/-- A result from the Ctrl-char handler has raw mode disabled, and a `Quit`
comes only from Ctrl-D on an empty buffer. -/
theorem ctrlCharStep_done (cfg : Config) (c : Char) (s : EditorState)
    (r : EditResult) (t : EditorState)
    (h : ctrlCharStep cfg c s = .done r t) :
    t.rawMode = false ∧ (r = .Quit → c = 'd' ∧ s.data = []) := by
  unfold ctrlCharStep at h
  by_cases hh : c = 'h'
  · rw [if_pos hh] at h
    split at h
    · simp at h
    · exact absurd h (doRedraw_ne_done _ _ _ _)
  · rw [if_neg hh] at h
    by_cases hd : c = 'd'
    · rw [if_pos hd] at h
      obtain ⟨h1, h2⟩ := doQuit_done _ _ _ _ h
      refine ⟨h2, ?_⟩
      intro hq
      subst hq
      refine ⟨hd, ?_⟩
      by_cases hdata : s.data = []
      · exact hdata
      · rw [if_neg hdata] at h1
        simp at h1
    · rw [if_neg hd] at h
      by_cases hc : c = 'c'
      · rw [if_pos hc] at h
        obtain ⟨h1, h2⟩ := doQuit_done _ _ _ _ h
        refine ⟨h2, ?_⟩
        intro hq
        rw [hq] at h1
        simp at h1
      · rw [if_neg hc] at h
        simp at h

/-- Any `EditResult` returned by the key-dispatch body has raw mode
disabled, and `Quit` arises only from Ctrl-D with an empty buffer. -/
theorem dispatchKey_done (cfg : Config) (s : EditorState) (ev : KeyEvent)
    (r : EditResult) (t : EditorState)
    (h : dispatchKey cfg s ev = .done r t) :
    t.rawMode = false ∧
    (r = .Quit → ev.code = .char 'd' ∧ ev.ctrl = true ∧ s.data = []) := by
  rcases ev with ⟨code, ctrl, shift, caps⟩
  cases code with
  | enter =>
    unfold dispatchKey at h
    try dsimp only at h
    by_cases hcl : s.completion_length ≠ 0
    · rw [if_pos hcl] at h
      cases hfsb : find_space_boundary s.data s.cursor true with
      | none => rw [hfsb] at h; simp at h
      | some c0 =>
        rw [hfsb] at h
        try dsimp only at h
        cases hcg : s.completions.get? s.completion_index with
        | none => rw [hcg] at h; simp at h
        | some comp =>
          rw [hcg] at h
          try dsimp only at h
          split at h
          · exact absurd h (doRedraw_ne_done _ _ _ _)
          · simp at h
    · rw [if_neg hcl] at h
      unfold tryOp at h
      split at h
      · simp at h
      · simp only [StepRes.done.injEq] at h
        obtain ⟨h1, h2⟩ := h
        subst h2
        subst h1
        refine ⟨rfl, ?_⟩
        intro hq
        simp at hq
  | backspace =>
    unfold dispatchKey at h
    try dsimp only at h
    split at h
    · split at h
      · exact absurd h (doRedraw_ne_done _ _ _ _)
      · simp at h
    · simp at h
  | char c =>
    unfold dispatchKey at h
    try dsimp only at h
    by_cases hctrl : ctrl = true
    · rw [if_pos hctrl] at h
      by_cases hcl : s.completion_length ≠ 0
      · rw [if_pos hcl] at h
        unfold tryOp at h
        split at h
        · simp at h
        · obtain ⟨h1, h2⟩ := ctrlCharStep_done _ _ _ _ _ h
          refine ⟨h1, ?_⟩
          intro hq
          obtain ⟨hc, hdata⟩ := h2 hq
          exact ⟨by rw [hc], hctrl, hdata⟩
      · rw [if_neg hcl] at h
        obtain ⟨h1, h2⟩ := ctrlCharStep_done _ _ _ _ _ h
        refine ⟨h1, ?_⟩
        intro hq
        obtain ⟨hc, hdata⟩ := h2 hq
        exact ⟨by rw [hc], hctrl, hdata⟩
    · rw [if_neg hctrl] at h
      try dsimp only at h
      split at h
      · exact absurd h (doRedraw_ne_done _ _ _ _)
      · simp at h
  | left =>
    unfold dispatchKey at h
    try dsimp only at h
    split at h
    · exact absurd h (panelRender_ne_done _ _ _ _)
    · split at h
      · split at h
        · simp at h
        · exact absurd h (doMoveTo_ne_done _ _ _ _)
      · split at h
        · exact absurd h (doMoveTo_ne_done _ _ _ _)
        · simp at h
  | right =>
    unfold dispatchKey at h
    try dsimp only at h
    split at h
    · exact absurd h (panelRender_ne_done _ _ _ _)
    · split at h
      · split at h
        · simp at h
        · exact absurd h (doMoveTo_ne_done _ _ _ _)
      · split at h
        · exact absurd h (doMoveTo_ne_done _ _ _ _)
        · simp at h
  | up =>
    unfold dispatchKey at h
    try dsimp only at h
    split at h
    · exact absurd h (panelRender_ne_done _ _ _ _)
    · split at h
      · simp at h
      · split at h
        · exact absurd h (doRedraw_ne_done _ _ _ _)
        · simp at h
  | down =>
    unfold dispatchKey at h
    try dsimp only at h
    split at h
    · exact absurd h (panelRender_ne_done _ _ _ _)
    · split at h
      · simp at h
      · split at h
        · exact absurd h (doRedraw_ne_done _ _ _ _)
        · exact absurd h (doRedraw_ne_done _ _ _ _)
  | home => exact absurd h (doMoveTo_ne_done _ _ _ _)
  | endKey => exact absurd h (doMoveTo_ne_done _ _ _ _)
  | tab =>
    unfold dispatchKey at h
    try dsimp only at h
    split at h
    · simp at h
    · split at h
      · simp at h
      · try dsimp only at h
        split at h
        · exact absurd h (tryOp_ne_done _ _
            (fun s' r t => tabShow_ne_done cfg s' r t) _ _)
        · exact absurd h (tabShow_ne_done _ _ _ _)
  | other =>
    unfold dispatchKey at h
    simp at h

/-- Any `EditResult` returned by a full dispatch has raw mode disabled, and
`Quit` arises only from Ctrl-D with an empty buffer. -/
theorem dispatch_done (cfg : Config) (s : EditorState) (ev : KeyEvent)
    (r : EditResult) (t : EditorState)
    (h : dispatch cfg s ev = .done r t) :
    t.rawMode = false ∧
    (r = .Quit → ev.code = .char 'd' ∧ ev.ctrl = true ∧ s.data = []) := by
  unfold dispatch at h
  cases hdk : dispatchKey cfg s ev with
  | cont s' => rw [hdk] at h; exact absurd h (trailing_ne_done _ _ _ _)
  | done r' t' =>
    rw [hdk] at h
    try dsimp only at h
    simp only [StepRes.done.injEq] at h
    obtain ⟨h1, h2⟩ := h
    subst h1
    subst h2
    exact dispatchKey_done cfg s ev _ _ hdk
  | ioErr s' => rw [hdk] at h; simp at h
  | crash => rw [hdk] at h; simp at h

/-- The delimiter the backward scan finds lies strictly below the start. -/
theorem lastBreakBefore_lt (breaks chars : List Char) :
    ∀ i d, lastBreakBefore breaks chars i = some d → d < i := by
  intro i
  induction i with
  | zero => intro d h; exact absurd h (by simp [lastBreakBefore])
  | succ i ih =>
    intro d h
    rw [lastBreakBefore] at h
    by_cases hb : breakAt breaks chars i = true
    · rw [if_pos hb] at h
      simp only [Option.some.injEq] at h
      omega
    · rw [if_neg hb] at h
      exact Nat.lt_succ_of_lt (ih d h)

/-- The delimiter the forward scan finds lies within the scanned range. -/
theorem firstBreakFrom_lt (breaks chars : List Char) :
    ∀ steps j r, firstBreakFrom breaks chars steps j = some r →
      r < j + steps := by
  intro steps
  induction steps with
  | zero => intro j r h; exact absurd h (by simp [firstBreakFrom])
  | succ steps ih =>
    intro j r h
    rw [firstBreakFrom] at h
    by_cases hb : breakAt breaks chars j = true
    · rw [if_pos hb] at h
      simp only [Option.some.injEq] at h
      omega
    · rw [if_neg hb] at h
      have := ih (j + 1) r h
      omega

/-- The backward boundary never moves the cursor forward. -/
theorem backBoundarySpec_le (breaks chars : List Char) (start : Nat) :
    backBoundarySpec breaks chars start ≤ start := by
  rw [backBoundarySpec]
  cases hlb : lastBreakBefore breaks chars start with
  | none => exact Nat.zero_le start
  | some d =>
    have hd := lastBreakBefore_lt breaks chars start d hlb
    dsimp only
    split <;> omega

/-- The forward boundary stays inside the buffer. -/
theorem fwdBoundarySpec_lt (breaks chars : List Char) (start : Nat)
    (hs : start < chars.length) :
    fwdBoundarySpec breaks chars start < chars.length := by
  rw [fwdBoundarySpec]
  cases hfb : firstBreakFrom breaks chars (chars.length - 1 - start)
      (start + 1) with
  | none => dsimp only; omega
  | some j =>
    have := firstBreakFrom_lt breaks chars _ _ _ hfb
    dsimp only
    omega

/-- A redraw call site does not move the cursor or change the buffer. -/
theorem doRedraw_inv (cfg : Config) (s : EditorState) (h : cursorInv s) :
    stepInv (doRedraw cfg s) := by
  unfold doRedraw tryOp
  split
  · exact h
  · dsimp only
    split
    · trivial
    · exact h

/-- A `move_to` call site does not move the cursor or change the buffer. -/
theorem doMoveTo_inv (cfg : Config) (s : EditorState) (h : cursorInv s) :
    stepInv (doMoveTo cfg s) := by
  unfold doMoveTo tryOp
  split
  · exact h
  · exact h

/-- The Tab show/reposition tail preserves the cursor invariant. -/
theorem tabShow_inv (cfg : Config) (s : EditorState) (h : cursorInv s) :
    stepInv (tabShow cfg s) := by
  unfold tabShow doShow
  split
  · exact doMoveTo_inv cfg _ h
  · unfold tryOp
    split
    · exact h
    · exact doMoveTo_inv cfg _ h

/-- The completion-panel redraw preserves the cursor invariant. -/
theorem panelRender_inv (cfg : Config) (s : EditorState) (h : cursorInv s) :
    stepInv (panelRender cfg s) := by
  unfold panelRender
  unfold tryOp
  split
  · exact h
  · have := tabShow_inv cfg
    unfold tabShow doShow at this
    exact this _ h

/-- The completion-dismiss block preserves the cursor invariant. -/
theorem trailing_inv (s : EditorState) (ev : KeyEvent) (h : cursorInv s) :
    stepInv (trailing s ev) := by
  unfold trailing
  split
  · unfold tryOp
    split
    · exact h
    · exact h
  · exact h

/-- The exit path preserves the cursor invariant. -/
theorem doQuit_inv (s : EditorState) (r : EditResult) (h : cursorInv s) :
    stepInv (doQuit s r) := by
  unfold doQuit tryOp
  dsimp only
  split
  · exact h
  · exact h

/-- The Ctrl-char handler preserves the cursor invariant. -/
theorem ctrlCharStep_inv (cfg : Config) (c : Char) (s : EditorState)
    (h : cursorInv s) : stepInv (ctrlCharStep cfg c s) := by
  unfold ctrlCharStep
  by_cases hh : c = 'h'
  · rw [if_pos hh]
    rw [find_word_boundary_backwards_eq cfg.word_breaks s.data s.cursor h]
    dsimp only
    apply doRedraw_inv
    have hle := backBoundarySpec_le cfg.word_breaks s.data s.cursor
    have hcl : s.cursor ≤ s.data.length := h
    show backBoundarySpec cfg.word_breaks s.data s.cursor ≤ _
    simp only [List.length_append, List.length_take, List.length_drop]
    omega
  · rw [if_neg hh]
    split
    · exact doQuit_inv _ _ h
    · split
      · exact doQuit_inv _ _ h
      · exact h



/-- The key-dispatch body preserves the cursor invariant. -/
theorem dispatchKey_inv (cfg : Config) (s : EditorState) (ev : KeyEvent)
    (h : cursorInv s) : stepInv (dispatchKey cfg s ev) := by
  have hcl : s.cursor ≤ s.data.length := h
  rcases ev with ⟨code, ctrl, shift, caps⟩
  cases code with
  | enter =>
    unfold dispatchKey
    try dsimp only
    split
    · cases hfsb : find_space_boundary s.data s.cursor true with
      | none => trivial
      | some c0 =>
        dsimp only
        cases hcg : s.completions.get? s.completion_index with
        | none => trivial
        | some comp =>
          dsimp only
          split
          · next hguard =>
            apply doRedraw_inv
            unfold cursorInv
            dsimp only
            simp only [List.length_append, List.length_take,
              List.length_drop] at hguard ⊢
            omega
          · trivial
    · unfold tryOp
      split
      · exact h
      · exact h
  | backspace =>
    unfold dispatchKey
    try dsimp only
    split
    · split
      · next hguard =>
        apply doRedraw_inv
        unfold cursorInv
        dsimp only
        rw [List.length_eraseIdx]
        simp only [hguard, if_pos]
        omega
      · trivial
    · exact h
  | char c =>
    unfold dispatchKey
    try dsimp only
    by_cases hctrl : ctrl = true
    · rw [if_pos hctrl]
      by_cases hpan : s.completion_length ≠ 0
      · rw [if_pos hpan]
        unfold tryOp
        split
        · exact h
        · exact ctrlCharStep_inv cfg c _ h
      · rw [if_neg hpan]
        exact ctrlCharStep_inv cfg c _ h
    · rw [if_neg hctrl]
      by_cases hcur : s.cursor ≤ s.data.length
      · rw [if_pos hcur]
        apply doRedraw_inv
        unfold cursorInv
        dsimp only
        simp only [List.length_append, List.length_take, List.length_cons,
          List.length_drop]
        omega
      · rw [if_neg hcur]
        trivial
  | left =>
    unfold dispatchKey
    try dsimp only
    split
    · exact panelRender_inv cfg _ h
    · split
      · rw [find_word_boundary_backwards_eq cfg.word_breaks s.data s.cursor
          hcl]
        dsimp only
        apply doMoveTo_inv
        unfold cursorInv
        dsimp only
        have := backBoundarySpec_le cfg.word_breaks s.data s.cursor
        omega
      · split
        · apply doMoveTo_inv
          unfold cursorInv
          dsimp only
          omega
        · exact h
  | right =>
    unfold dispatchKey
    try dsimp only
    split
    · exact panelRender_inv cfg _ h
    · split
      · by_cases hcur : s.cursor < s.data.length
        · rw [find_word_boundary_forwards_eq cfg.word_breaks s.data s.cursor
            hcur]
          dsimp only
          apply doMoveTo_inv
          unfold cursorInv
          dsimp only
          have := fwdBoundarySpec_lt cfg.word_breaks s.data s.cursor hcur
          omega
        · rw [find_word_boundary_forwards_oob cfg.word_breaks s.data s.cursor
            (by omega)]
          trivial
      · split
        · next hne =>
          apply doMoveTo_inv
          unfold cursorInv
          dsimp only
          omega
        · exact h
  | up =>
    unfold dispatchKey
    try dsimp only
    split
    · exact panelRender_inv cfg _ h
    · cases hh : s.history with
      | none => exact h
      | some hist =>
        dsimp only
        rcases hhu : hist.up with ⟨h2, l⟩
        cases l with
        | none =>
          dsimp only
          exact h
        | some line =>
          dsimp only
          apply doRedraw_inv
          unfold cursorInv
          dsimp only
          exact Nat.le_refl _
  | down =>
    unfold dispatchKey
    try dsimp only
    split
    · exact panelRender_inv cfg _ h
    · cases hh : s.history with
      | none => exact h
      | some hist =>
        dsimp only
        rcases hhu : hist.down with ⟨h2, l⟩
        cases l with
        | none =>
          dsimp only
          apply doRedraw_inv
          unfold cursorInv
          dsimp only
          exact Nat.zero_le _
        | some line =>
          dsimp only
          apply doRedraw_inv
          unfold cursorInv
          dsimp only
          exact Nat.le_refl _
  | home =>
    unfold dispatchKey
    try dsimp only
    apply doMoveTo_inv
    unfold cursorInv
    dsimp only
    exact Nat.zero_le _
  | endKey =>
    unfold dispatchKey
    try dsimp only
    apply doMoveTo_inv
    unfold cursorInv
    dsimp only
    exact Nat.le_refl _
  | tab =>
    unfold dispatchKey
    try dsimp only
    cases hfsb : find_space_boundary s.data s.cursor true with
    | none => trivial
    | some ws =>
      dsimp only
      cases hc : cfg.completion with
      | none => exact h
      | some f =>
        dsimp only
        split
        · unfold tryOp
          split
          · exact h
          · exact tabShow_inv cfg _ h
        · exact tabShow_inv cfg _ h
  | other =>
    unfold dispatchKey
    exact h

/-- A full dispatch preserves the cursor invariant. -/
theorem dispatch_inv (cfg : Config) (s : EditorState) (ev : KeyEvent)
    (h : cursorInv s) : stepInv (dispatch cfg s ev) := by
  unfold dispatch
  cases hdk : dispatchKey cfg s ev with
  | cont s' =>
    have := dispatchKey_inv cfg s ev h
    rw [hdk] at this
    exact trailing_inv s' ev this
  | done r t =>
    have := dispatchKey_inv cfg s ev h
    rw [hdk] at this
    exact this
  | ioErr s' =>
    have := dispatchKey_inv cfg s ev h
    rw [hdk] at this
    exact this
  | crash => trivial



/-- Every whole event sequence preserves the cursor invariant. -/
theorem runEvents_inv (cfg : Config) :
    ∀ evs (s : EditorState), cursorInv s → stepInv (runEvents cfg s evs) := by
  intro evs
  induction evs with
  | nil => intro s h; exact h
  | cons e es ih =>
    intro s h
    rw [runEvents]
    cases hd : dispatch cfg s e with
    | cont s' =>
      apply ih
      have := dispatch_inv cfg s e h
      rw [hd] at this
      exact this
    | done r t =>
      have := dispatch_inv cfg s e h
      rw [hd] at this
      exact this
    | ioErr t =>
      have := dispatch_inv cfg s e h
      rw [hd] at this
      exact this
    | crash => trivial


/-! ## Claim theorems -/

/-- C1: the claim's wrap partition and `num_lines` formula fail on the code:
at the claim's own instance (width 10, prompt length 2, content length 23,
cursor at the end) the wrap loop of `redraw` never terminates — its `cap`
sticks at `min(len, W) = 10` while 13 characters remain — so no fuel makes
the model return; only the standalone cursor-placement arithmetic of
`move_to` (row `(end+promptLen) div W = 2`, column `mod W = 5`) matches the
claim. -/
theorem C1_redraw_wrap_diverges :
    (∀ fuel, redraw data23 2 10 23 fuel = none) ∧
    move_to 2 10 0 23 = (2, 5) := by
  constructor
  · intro fuel
    rw [redraw]
    have h23 : data23.length = 23 := by decide
    rw [redrawLoop_eq_none data23 10 (by rw [h23]; decide) fuel _ _ _
      (by rw [h23]; decide)]
    simp [h23]
  · rfl

/-- C3: evaluating `History::push` at the failing input. With
`max_lines = 1`, pushing `"a"` then `"b"` leaves the store holding `["a"]`,
not the last-pushed `["b"]` the claim requires: `Vec::truncate(max_lines)`
keeps the *first* `max_lines` entries, dropping the entry just pushed.  The
`nav_index`-reset part of the claim does hold (`index = 1`). -/
theorem C3_push_drops_new_entry :
    (((History.mk [] [] 0 1).push ['a']).push ['b']).lines = [['a']] ∧
    (((History.mk [] [] 0 1).push ['a']).push ['b']).index = 1 ∧
    [['a']] ≠ ([['b']] : List (List Char)) := by
  refine ⟨rfl, rfl, by decide⟩

/-- C8: history navigation.  `up()` decrements `nav_index` and returns the
entry there when `nav_index > 0`, else returns nothing; `down()` increments
and returns that entry when `nav_index + 1 < len`, else nothing; and the
concrete trace from the fresh store `["a","b","c"]` is
`up → "c"`, `up → "b"`, `up → "a"`, `up → nothing` (staying put), then
`down → "b"`. -/
theorem C8_history_navigation (h : History) :
    (0 < h.index →
      h.up = ({ h with index := h.index - 1 }, h.lines.get? (h.index - 1))) ∧
    (h.index = 0 → h.up = (h, none)) ∧
    (h.index + 1 < h.lines.length →
      h.down = ({ h with index := h.index + 1 },
        h.lines.get? (h.index + 1))) ∧
    (h.lines.length ≤ h.index + 1 → h.down = (h, none)) ∧
    ((histNav 3).up = (histNav 2, some ['c']) ∧
     (histNav 2).up = (histNav 1, some ['b']) ∧
     (histNav 1).up = (histNav 0, some ['a']) ∧
     (histNav 0).up = (histNav 0, none) ∧
     (histNav 0).down = (histNav 1, some ['b'])) := by
  refine ⟨?_, ?_, ?_, ?_, by decide⟩
  · intro hpos
    simp [History.up, hpos]
  · intro hz
    simp [History.up, hz]
  · intro hlt
    simp [History.down, hlt]
  · intro hge
    simp [History.down, Nat.not_lt.mpr hge]

/-- C8 witness: the general clauses applied to the fresh concrete store. -/
theorem C8_history_navigation_witness :
    0 < (histNav 3).index ∧
    (histNav 3).up = ({ histNav 3 with index := 2 },
      (histNav 3).lines.get? 2) :=
  ⟨by decide, (C8_history_navigation (histNav 3)).1 (by decide)⟩

/-- C10: with the cursor at index 0 and no completion panel open, Backspace
leaves the whole session state — buffer, cursor, render counters, candidate
state, I/O schedule — unchanged; in particular no redraw happens (no entry
of the I/O schedule is consumed). -/
theorem C10_backspace_noop (cfg : Config) (s : EditorState)
    (ctrl shift caps : Bool) (hpanel : s.completion_length = 0)
    (hcur : s.cursor = 0) :
    dispatch cfg s ⟨.backspace, ctrl, shift, caps⟩ = .cont s := by
  simp [dispatch, dispatchKey, trailing, hpanel, hcur]

/-- C10 witness: the concrete empty session. -/
theorem C10_backspace_noop_witness :
    (⟨[], 0, 0, 0, 0, [], 0, none, true, []⟩ : EditorState).completion_length
        = 0 ∧
    (⟨[], 0, 0, 0, 0, [], 0, none, true, []⟩ : EditorState).cursor = 0 ∧
    dispatch ⟨WORD_BREAKS, 2, 80, none⟩
      ⟨[], 0, 0, 0, 0, [], 0, none, true, []⟩
      ⟨.backspace, false, false, false⟩ =
      .cont ⟨[], 0, 0, 0, 0, [], 0, none, true, []⟩ :=
  ⟨rfl, rfl, C10_backspace_noop ⟨WORD_BREAKS, 2, 80, none⟩
    ⟨[], 0, 0, 0, 0, [], 0, none, true, []⟩ false false false rfl rfl⟩

/-- C6: the key sequence Tab (panel with one candidate), Right, Enter makes
the session index the candidate list at position 1 ≥ its length 1: the
`completions[completion_index]` access in the Enter handler is unguarded
while `selected_index` increments are uncapped, so the commit panics
(modelled as `crash`). -/
theorem C6_unguarded_completion_index :
    dispatch cfgOneCandidate freshState ⟨.tab, false, false, false⟩ =
      .cont panelState ∧
    dispatch cfgOneCandidate panelState ⟨.right, false, false, false⟩ =
      .cont { panelState with completion_index := 1 } ∧
    dispatch cfgOneCandidate { panelState with completion_index := 1 }
      ⟨.enter, false, false, false⟩ = .crash :=
  ⟨rfl, rfl, rfl⟩

/-- C5 counterexample: a redraw failure inside the Backspace handler
propagates the error with raw mode still enabled.  The state
`⟨['a'], 1, …, rawMode := true, io := [true]⟩` has one buffered character
and an I/O schedule failing the next terminal operation; Backspace deletes
the character and then fails its redraw, and the error is returned with
`rawMode = true` — the claim requires raw mode to be disabled on this path. -/
theorem C5_write_error_keeps_raw_mode :
    dispatch ⟨WORD_BREAKS, 2, 80, none⟩
      ⟨['a'], 1, 0, 0, 0, [], 0, none, true, [true]⟩
      ⟨.backspace, false, false, false⟩ =
      .ioErr ⟨[], 0, 0, 0, 0, [], 0, none, true, []⟩ ∧
    (⟨[], 0, 0, 0, 0, [], 0, none, true, []⟩ : EditorState).rawMode = true :=
  ⟨rfl, rfl⟩

/-- C2 counterexample: the step-back rule does not apply in the forward
direction.  For `"foo-bar"` and `start = 0`, the forward scan finds the
delimiter `'-'` at index 3, at distance 3 > 1 from `start`; the claim's
rule then requires stepping back to 2, but the code returns 3 (the signed
comparison `start - i > 1` never fires scanning forward). -/
theorem C2_forward_scan_never_steps_back :
    find_word_boundary WORD_BREAKS ("foo-bar").toList 0 false = some 3 ∧
    claimedBoundaryFwd WORD_BREAKS ("foo-bar").toList 0 = 2 ∧
    (3 : Nat) ≠ 2 :=
  ⟨by decide, by decide, by decide⟩

/-- C2 amended: `find_word_boundary` scans from `start` toward the buffer
edge until a break character is found; *backwards* it applies the claim's
distance rule — step the result back one position toward `start` when the
distance exceeds 1, return the delimiter itself at distance exactly 1, and
return the edge 0 when no delimiter occurs (`backBoundarySpec`); *forwards*
the step-back never applies (the code compares the signed distance), so the
found delimiter's own index is returned, or the edge `len - 1`
(`fwdBoundarySpec`); a forward scan started at or past `len` panics. -/
theorem C2_word_boundary_amended (breaks chars : List Char) (start : Nat) :
    (start ≤ chars.length →
      find_word_boundary breaks chars start true =
        some (backBoundarySpec breaks chars start)) ∧
    (start < chars.length →
      find_word_boundary breaks chars start false =
        some (fwdBoundarySpec breaks chars start)) ∧
    (chars.length ≤ start →
      find_word_boundary breaks chars start false = none) :=
  ⟨find_word_boundary_backwards_eq breaks chars start,
   find_word_boundary_forwards_eq breaks chars start,
   find_word_boundary_forwards_oob breaks chars start⟩

/-- C2 witness: the claim's own example, `find_word_boundary("foo-bar", 7,
backwards) = 4`, recovered from the amended characterisation. -/
theorem C2_word_boundary_amended_witness :
    7 ≤ ("foo-bar").toList.length ∧
    find_word_boundary WORD_BREAKS ("foo-bar").toList 7 true =
      some (backBoundarySpec WORD_BREAKS ("foo-bar").toList 7) ∧
    backBoundarySpec WORD_BREAKS ("foo-bar").toList 7 = 4 :=
  ⟨by decide,
   (C2_word_boundary_amended WORD_BREAKS ("foo-bar").toList 7).1 (by decide),
   by decide⟩

/-- C9 counterexample: the retained sequence `[""]` (one empty entry — e.g.
after submitting an empty line) does not round-trip.  `save()` writes the
empty file content, and reloading parses that as *zero* entries. -/
theorem C9_empty_entry_lost :
    (History.new (some (History.save ⟨[[]], [], 1, 10⟩)) [] 10).lines = [] ∧
    (History.mk [[]] [] 1 10).lines = [[]] ∧
    ([] : List (List Char)) ≠ [[]] :=
  ⟨rfl, rfl, by decide⟩

/-- C9 amended: `save()` followed by reloading from the written content
reproduces the retained entry sequence exactly, provided no entry contains
a newline, no entry ends with a carriage return, and the last entry is not
the empty string (for the empty sequence the round trip holds trivially);
a final empty entry is dropped by Rust's `str::lines` on reload, as the
counterexample shows. -/
theorem C9_roundtrip_amended (h : History)
    (hnl : ∀ s ∈ h.lines, ('\n') ∉ s)
    (hcr : ∀ s ∈ h.lines, s.getLast? ≠ some '\r')
    (hlast : h.lines.getLast? ≠ some []) :
    (History.new (some h.save) h.file h.max_lines).lines = h.lines := by
  show rustLines (List.intercalate ['\n'] h.lines) = h.lines
  cases hl : h.lines with
  | nil => simp [rustLines, List.intercalate]
  | cons a l =>
    rw [← hl]
    have hne : h.lines ≠ [] := by rw [hl]; exact List.cons_ne_nil a l
    have hsplit : (List.intercalate ['\n'] h.lines).splitOn '\n' = h.lines :=
      List.splitOn_intercalate h.lines '\n' hnl hne
    rw [rustLines]
    simp only [hsplit]
    rw [if_neg hlast]
    have hmap : ∀ p ∈ h.lines,
        (if p.getLast? = some '\r' then p.dropLast else p) = p := by
      intro p hp
      rw [if_neg (hcr p hp)]
    rw [List.map_congr_left hmap]
    simp

/-- C9 witness: the two-entry store `["a","b"]` round-trips. -/
theorem C9_roundtrip_amended_witness :
    (∀ s ∈ (History.mk [['a'], ['b']] [] 2 10).lines, ('\n') ∉ s) ∧
    (History.new (some (History.mk [['a'], ['b']] [] 2 10).save) [] 10).lines
      = [['a'], ['b']] :=
  ⟨by decide,
   C9_roundtrip_amended ⟨[['a'], ['b']], [], 2, 10⟩ (by decide) (by decide)
     (by decide)⟩

/-- C4: with no injected I/O failure, Ctrl-D returns `Quit` exactly when the
buffer is empty and `Cancel` otherwise; Ctrl-C returns `Cancel` regardless
of the buffer; Enter with no completion panel open returns `Ok` carrying
exactly the current buffer text (and pushes it into the history); and, over
all events, `Quit` can only arise from Ctrl-D with an empty buffer. -/
theorem C4_read_results (cfg : Config) (s : EditorState) (sh cl en : Bool)
    (hio : s.io = []) :
    dispatch cfg s ⟨.char 'd', true, sh, cl⟩ =
      .done (if s.data = [] then .Quit else .Cancel)
        { s with rawMode := false,
                 history := s.history.map History.reset_index } ∧
    dispatch cfg s ⟨.char 'c', true, sh, cl⟩ =
      .done .Cancel
        { s with rawMode := false,
                 history := s.history.map History.reset_index } ∧
    (s.completion_length = 0 →
      dispatch cfg s ⟨.enter, en, sh, cl⟩ =
        .done (.Ok s.data)
          { s with rawMode := false,
                   history := (s.history.map History.reset_index).map
                     (fun h => h.push s.data) }) ∧
    (∀ ev r t, dispatch cfg s ev = .done r t → r = .Quit →
      ev.code = .char 'd' ∧ ev.ctrl = true ∧ s.data = []) := by
  rcases s with ⟨data, cursor, cline, nlines, clen, comps, cidx, hist, raw,
    io⟩
  simp only at hio
  subst hio
  refine ⟨?_, ?_, ?_, ?_⟩
  · by_cases hclen : clen = 0 <;>
      simp [dispatch, dispatchKey, ctrlCharStep, doQuit, tryOp, popFail,
        trailing, hclen]
  · by_cases hclen : clen = 0 <;>
      simp [dispatch, dispatchKey, ctrlCharStep, doQuit, tryOp, popFail,
        trailing, hclen]
  · intro hclen
    simp only at hclen
    subst hclen
    simp [dispatch, dispatchKey, tryOp, popFail, trailing]
  · intro ev r t h hq
    exact (dispatch_done _ _ ev r t h).2 hq

/-- C4 witness: Ctrl-D on the non-empty buffer `"hi"` yields `Cancel`. -/
theorem C4_read_results_witness :
    sHi.io = [] ∧
    dispatch cfgPlain sHi ⟨.char 'd', true, false, false⟩ =
      .done (if sHi.data = [] then .Quit else .Cancel)
        { sHi with rawMode := false,
                   history := sHi.history.map History.reset_index } :=
  ⟨rfl, (C4_read_results cfgPlain sHi false false false rfl).1⟩

/-- C5 amended: raw mode *is* disabled before the error is propagated on
the event-read failure path, and it is disabled before every normal return
of a result (Ctrl-C, Ctrl-D, submission); the write/redraw/move error paths
inside the key handlers, by contrast, propagate the error without touching
raw mode (the counterexample exhibits one). -/
theorem C5_raw_mode_amended (cfg : Config) (s : EditorState)
    (ev : KeyEvent) :
    readIter cfg s none = .ioErr { s with rawMode := false } ∧
    (∀ r t, dispatch cfg s ev = .done r t → t.rawMode = false) := by
  refine ⟨rfl, ?_⟩
  intro r t h
  exact (dispatch_done cfg s ev r t h).1

/-- C5 witness: the event-read failure clause at a concrete session, and
the disabled-raw-mode clause at the concrete Ctrl-D return. -/
theorem C5_raw_mode_amended_witness :
    readIter cfgPlain freshState none =
      .ioErr { freshState with rawMode := false } ∧
    (⟨[], 0, 0, 0, 0, [], 0, none, false, []⟩ : EditorState).rawMode
      = false :=
  ⟨(C5_raw_mode_amended cfgPlain freshState
      ⟨.char 'd', true, false, false⟩).1,
   (C5_raw_mode_amended cfgPlain freshState
      ⟨.char 'd', true, false, false⟩).2 .Quit
      ⟨[], 0, 0, 0, 0, [], 0, none, false, []⟩ rfl⟩

/-- C7: the buffer-cursor invariant `0 <= cursor <= len(text)` is preserved
by every single key dispatch (insertions, backspace, word-delete, cursor
motion, Home/End, history recall, completion commit) and hence by every
sequence of key events: every state an outcome carries satisfies it. -/
theorem C7_cursor_in_bounds (cfg : Config) (s : EditorState) (ev : KeyEvent)
    (evs : List KeyEvent) (h : cursorInv s) :
    stepInv (dispatch cfg s ev) ∧ stepInv (runEvents cfg s evs) :=
  ⟨dispatch_inv cfg s ev h, runEvents_inv cfg evs s h⟩

/-- C7 witness: the invariant run on a concrete session and sequence. -/
theorem C7_cursor_in_bounds_witness :
    cursorInv sHi ∧
    (stepInv (dispatch cfgPlain sHi ⟨.char 'x', false, false, false⟩) ∧
     stepInv (runEvents cfgPlain sHi
       [⟨.left, false, false, false⟩, ⟨.backspace, false, false, false⟩])) :=
  ⟨Nat.le_refl 2,
   C7_cursor_in_bounds cfgPlain sHi ⟨.char 'x', false, false, false⟩
     [⟨.left, false, false, false⟩, ⟨.backspace, false, false, false⟩]
     (Nat.le_refl 2)⟩

end Linoleum
